import Mathlib

/-!
Verification of the core of the EndlessPixel modpack downloader
(`src/main.py`): the version sort key (`VersionManager.parse_version`), the
platform-version extractor (`VersionManager.extract_mc_version`), the
release-catalog builder (`VersionManager.get_versions`), the mirror rewriter
(`MirrorManager.get_mirror_url`, together with a model of CPython
`urllib.parse.urljoin`), the byte-range partition of `DownloadWorker.run`,
and a sequentialized signal model of the download engine.

Modelling conventions:
* Python strings are Lean `String`/`List Char`; `\d` and `[a-zA-Z]` in the
  source's regular expressions are modelled as ASCII digits/letters (the
  inputs of interest are ASCII release tags and file names).
* Sizes and counts are `Nat` (the Python integers involved are unbounded
  and non-negative in every use modelled here).
* The configuration dictionaries are association lists with unique keys.
-/

/-! ### Character-list helpers shared by the regex translations -/

/-- Python `int()` of a run of ASCII decimal digits. -/
def natOfDigits (ds : List Char) : Nat :=
  ds.foldl (fun n c => n * 10 + (c.toNat - Char.toNat '0')) 0

def digitRunsAux : List Char → List Char → List (List Char)
  | [], acc => if acc.isEmpty then [] else [acc.reverse]
  | c :: rest, acc =>
    if c.isDigit then digitRunsAux rest (c :: acc)
    else if acc.isEmpty then digitRunsAux rest []
    else acc.reverse :: digitRunsAux rest []

/-- All maximal runs of ASCII digits, left to right: Python
`re.findall(r'\d+', s)`. -/
def digitRuns (l : List Char) : List (List Char) := digitRunsAux l []

/-- Drop one trailing newline, if present. -/
def stripTrailNl (t : List Char) : List Char :=
  if t.getLast? = some '\n' then t.dropLast else t

/-- Leftmost match of Python `re.search(r'-([a-zA-Z]+.*)$', s)`: the first
`'-'` that is followed by an ASCII letter such that the remainder can be
matched by `[a-zA-Z]+.*$` (`.` does not cross a newline; `$` also matches
just before one trailing newline).  Returns the greedy capture of group 1. -/
def sufSearch : List Char → Option (List Char)
  | [] => none
  | '-' :: rest =>
    match rest with
    | c :: t =>
      if c.isAlpha && (stripTrailNl t).all (fun x => x != '\n') then
        some (c :: stripTrailNl t)
      else sufSearch rest
    | [] => none
  | _ :: rest => sufSearch rest

/-- Python `str.replace(pat, "")` for non-empty `pat`: removes all
non-overlapping occurrences, left to right.  Fuelled structural recursion;
`l.length + 1` units of fuel always suffice because each step consumes at
least one character. -/
def removeAllAux (pat : List Char) : Nat → List Char → List Char
  | _, [] => []
  | 0, l => l
  | fuel + 1, c :: rest =>
    if !pat.isEmpty && pat.isPrefixOf (c :: rest) then
      removeAllAux pat fuel ((c :: rest).drop pat.length)
    else
      c :: removeAllAux pat fuel rest

def removeAll (pat l : List Char) : List Char := removeAllAux pat (l.length + 1) l

/-! ### `VersionManager.parse_version` (src/main.py lines 453-470) -/

/-- The capture of `re.search(r'-([a-zA-Z]+.*)$', version_str)`, or `""` when
there is no match (`pre_release` in `parse_version`). -/
def preSuffix (version_str : String) : String :=
  match sufSearch version_str.toList with
  | some cs => String.mk cs
  | none => ""

/-- `main_version_str` in `parse_version`:
`version_str.replace("-" + pre_release, "")` when a prerelease suffix was
found, else `version_str` unchanged. -/
def mainVersionStr (version_str : String) : String :=
  if preSuffix version_str ≠ "" then
    String.mk (removeAll ("-" ++ preSuffix version_str).toList version_str.toList)
  else version_str

/-- `VersionManager.parse_version`: the sort key
`(main_parts, pre_release_priority, pre_release_num)`. -/
def parse_version (version_str : String) : List Nat × Nat × Nat :=
  ((digitRuns (mainVersionStr version_str).toList).map natOfDigits,
   if preSuffix version_str ≠ "" then 50 else 100,
   match digitRuns (preSuffix version_str).toList with
   | r :: _ => natOfDigits r
   | [] => 0)

/-- Python `list.__lt__` on the numeric-component lists. -/
def natListLtB : List Nat → List Nat → Bool
  | [], [] => false
  | [], _ :: _ => true
  | _ :: _, [] => false
  | a :: as1, b :: bs1 =>
    if a < b then true else if b < a then false else natListLtB as1 bs1

/-- Python tuple `<` on sort keys `(main_parts, priority, num)`, the order
used by `releases.sort(key=..., reverse=True)`. -/
def keyLtB (k1 k2 : List Nat × Nat × Nat) : Bool :=
  natListLtB k1.1 k2.1 ||
    (k1.1 == k2.1 && (Nat.blt k1.2.1 k2.2.1 ||
      (k1.2.1 == k2.2.1 && Nat.blt k1.2.2 k2.2.2)))

/-! ### Byte-range partition of `DownloadWorker.run` (src/main.py 201-214) -/

/-- `start = i * chunk_size` with `chunk_size = total_size // threads`. -/
def chunkStart (total_size threads i : Nat) : Nat := i * (total_size / threads)

/-- `end = total_size - 1 if i == threads - 1 else (i + 1) * chunk_size - 1`. -/
def chunkEnd (total_size threads i : Nat) : Nat :=
  if i = threads - 1 then total_size - 1 else (i + 1) * (total_size / threads) - 1

/-- The byte ranges `[start, end]` assigned to the workers, in thread order. -/
def chunkRanges (total_size threads : Nat) : List (Nat × Nat) :=
  (List.range threads).map
    (fun i => (chunkStart total_size threads i, chunkEnd total_size threads i))

/-! ### `VersionManager.extract_mc_version` (src/main.py 446-451) -/

/-- Anchored match of `re.match(r'(\d+\.\d+(?:\.\d+)?)-', tag)`, returning
group 1: a leading dotted 2- or 3-part numeric version immediately followed
by `'-'`.  After the second digit run the next character decides the parse
deterministically: `'-'` closes the 2-part version; `'.'` commits to the
greedy optional third part, whose failure cannot backtrack to the 2-part
reading (that would need `'-'` where the input has `'.'`); anything else
fails. -/
def mcVerParse (l : List Char) : Option (List Char) :=
  if (l.takeWhile Char.isDigit).isEmpty then none else
  match l.dropWhile Char.isDigit with
  | [] => none
  | c :: r1 =>
    if c ≠ '.' then none else
    if (r1.takeWhile Char.isDigit).isEmpty then none else
    match r1.dropWhile Char.isDigit with
    | [] => none
    | c2 :: r2 =>
      if c2 = '-' then
        some (l.takeWhile Char.isDigit ++ '.' :: r1.takeWhile Char.isDigit)
      else if c2 ≠ '.' then none else
      if (r2.takeWhile Char.isDigit).isEmpty then none else
      match r2.dropWhile Char.isDigit with
      | [] => none
      | c3 :: _ =>
        if c3 = '-' then
          some (l.takeWhile Char.isDigit ++ '.' ::
            (r1.takeWhile Char.isDigit ++ '.' :: r2.takeWhile Char.isDigit))
        else none

/-- `VersionManager.extract_mc_version`. -/
def extract_mc_version (tag_name : String) : Option String :=
  Option.map String.mk (mcVerParse tag_name.toList)

/-- The platform-version key used by `get_versions`:
`mc_version = extract_mc_version(tag_name) or "未知版本"`
(the code spells it `if not mc_version: mc_version = "未知版本"`). -/
def mcVersionOf (tag_name : String) : String :=
  match extract_mc_version tag_name with
  | some v => if v = "" then "未知版本" else v
  | none => "未知版本"

/-! ### Asset naming grammar of `VersionManager.get_versions` (line 389) -/

/-- `$` of the asset-name regex: end of string, or just before one trailing
newline (Python `re` semantics). -/
def endOk : List Char → Bool
  | [] => true
  | ['\n'] => true
  | _ => false

/-- `(\d+\.\d+|b\d+)`: the two alternatives have disjoint first characters,
so the alternation is deterministic. -/
def parseSubVersion (l : List Char) : Option (List Char) :=
  match l with
  | 'b' :: r =>
    if (r.takeWhile Char.isDigit).isEmpty then none
    else some (r.dropWhile Char.isDigit)
  | _ =>
    if (l.takeWhile Char.isDigit).isEmpty then none else
    match l.dropWhile Char.isDigit with
    | '.' :: r2 =>
      if (r2.takeWhile Char.isDigit).isEmpty then none
      else some (r2.dropWhile Char.isDigit)
    | _ => none

/-- `\.(zip|mrpack)$`. -/
def parseExt (l : List Char) : Bool :=
  match l with
  | '.' :: r =>
    if ['z', 'i', 'p'].isPrefixOf r then endOk (r.drop 3)
    else if ['m', 'r', 'p', 'a', 'c', 'k'].isPrefixOf r then endOk (r.drop 6)
    else false
  | _ => false

/-- `-v\d+-(\d+\.\d+|b\d+)\.(zip|mrpack)$`. -/
def parseDashV (l : List Char) : Bool :=
  match l with
  | '-' :: 'v' :: r =>
    if (r.takeWhile Char.isDigit).isEmpty then false else
    (match r.dropWhile Char.isDigit with
     | '-' :: r2 =>
       (match parseSubVersion r2 with
        | some r3 => parseExt r3
        | none => false)
     | _ => false)
  | _ => false

/-- `\d+\.\d+(\.\d+)?-v...` starting at the first digit.  If the greedy
optional third part is taken, the regex can no longer backtrack to the
2-part reading (that would need `'-'` where the input has `'.'`). -/
def parseVerPart (l : List Char) : Bool :=
  if (l.takeWhile Char.isDigit).isEmpty then false else
  match l.dropWhile Char.isDigit with
  | '.' :: r1 =>
    if (r1.takeWhile Char.isDigit).isEmpty then false else
    (match r1.dropWhile Char.isDigit with
     | '.' :: r2 =>
       if (r2.takeWhile Char.isDigit).isEmpty then false
       else parseDashV (r2.dropWhile Char.isDigit)
     | r2 => parseDashV r2)
  | _ => false

/-- `re.match(r'^EndlessPixel\.\d+\.\d+(\.\d+)?-v\d+-(\d+\.\d+|b\d+)\.(zip|mrpack)$', name)`
as a Bool. -/
def assetNameOk (name : String) : Bool :=
  let l := name.toList
  if ("EndlessPixel.".toList).isPrefixOf l then parseVerPart (l.drop 13)
  else false

/-! ### Release catalog data model (the JSON fields `get_versions` reads) -/

structure Asset where
  name : String
  browser_download_url : String
  size : Nat
deriving DecidableEq

structure Release where
  tag_name : String
  assets : List Asset
  prerelease : Bool
  published_at : String
  body : String
  html_url : String
deriving DecidableEq

structure ModpackEntry where
  tag_name : String
  download_url : String
  file_name : String
  file_size : Nat
  is_prerelease : Bool
  published_at : String
  release_notes : String
  html_url : String
deriving DecidableEq

/-- The dictionary entry `get_versions` appends for a release and its
matched asset. -/
def mkEntry (r : Release) (a : Asset) : ModpackEntry :=
  { tag_name := r.tag_name
    download_url := a.browser_download_url
    file_name := a.name
    file_size := a.size
    is_prerelease := r.prerelease
    published_at := r.published_at
    release_notes := r.body
    html_url := r.html_url }

/-- One loop iteration of `get_versions` (src/main.py 379-423): skip a
release without assets, pick the first asset matching the naming grammar
(`for asset in assets: ... break`), skip when none matches, and key the
entry by the extracted platform version. -/
def releaseToEntry (r : Release) : Option (String × ModpackEntry) :=
  if r.assets.isEmpty then none
  else
    match r.assets.find? (fun a => assetNameOk a.name) with
    | some a => some (mcVersionOf r.tag_name, mkEntry r a)
    | none => none

/-- Python-dict insertion used by `mc_versions[mc_version].append(...)`:
append to the bucket if the key exists, else add a new bucket at the end. -/
def insertEntry : List (String × List ModpackEntry) → String → ModpackEntry →
    List (String × List ModpackEntry)
  | [], k, e => [(k, [e])]
  | (k', es) :: rest, k, e =>
    if k' = k then (k', es ++ [e]) :: rest else (k', es) :: insertEntry rest k e

/-- Total number of entries in the catalog dictionary. -/
def catalogCount (cat : List (String × List ModpackEntry)) : Nat :=
  (cat.map (fun kv => kv.2.length)).sum

/-- `releases.sort(key=lambda x: parse_version(x['tag_name']), reverse=True)`:
a stable descending sort, i.e. `r1` may stay before `r2` exactly when
`parse_version(tag r1) < parse_version(tag r2)` is false. -/
def sortReleases (rs : List Release) : List Release :=
  rs.insertionSort
    (fun r1 r2 => keyLtB (parse_version r1.tag_name) (parse_version r2.tag_name) = false)

/-- The grouping phase of `get_versions`, applied to the accumulated release
list. -/
def buildCatalog (rs : List Release) : List (String × List ModpackEntry) :=
  (sortReleases rs).foldl
    (fun cat r =>
      match releaseToEntry r with
      | none => cat
      | some ke => insertEntry cat ke.1 ke.2) []

/-- One page interaction of the pagination loop in `get_versions`: either the
GET succeeded (with `next` recording whether the `Link` header carried a
`rel="next"` URL), or it failed (transport error, non-2xx status from
`raise_for_status`, or a JSON decode error). -/
inductive PageResult where
  | ok (releases : List Release) (next : Bool)
  | err (msg : String)
deriving DecidableEq

/-- The `while url:` pagination loop of `get_versions`, driven by the
sequence of page responses the server produces. -/
def collectReleases : List PageResult → Except String (List Release)
  | [] => Except.ok []
  | PageResult.err m :: _ => Except.error m
  | PageResult.ok rs nxt :: rest =>
    if nxt then (collectReleases rest).map (fun more => rs ++ more)
    else Except.ok rs

/-- `VersionManager.get_versions` (src/main.py 350-428): drain pagination,
sort, group; the surrounding `try/except` turns any page failure into a
printed message and the return value `{}` (the empty dictionary). -/
def get_versions (pages : List PageResult) : List (String × List ModpackEntry) :=
  match collectReleases pages with
  | Except.error _ => []
  | Except.ok rs => buildCatalog rs

/-! ### CPython `urllib.parse` model (used by `MirrorManager.get_mirror_url`) -/

structure SplitUrl where
  scheme : List Char
  netloc : List Char
  path : List Char
  query : List Char
  fragment : List Char
deriving DecidableEq

structure ParsedUrl where
  scheme : List Char
  netloc : List Char
  path : List Char
  params : List Char
  query : List Char
  fragment : List Char
deriving DecidableEq

/-- `urlsplit` removes every tab, carriage return and newline first
(`_UNSAFE_URL_BYTES_TO_REMOVE`). -/
def removeUnsafe (l : List Char) : List Char :=
  l.filter (fun c => c != '\t' && c != '\r' && c != '\n')

def schemeChars : List Char :=
  "abcdefghijklmnopqrstuvwxyzABCDEFGHIJKLMNOPQRSTUVWXYZ0123456789+-.".toList

/-- Scheme detection in `urlsplit`: the text before the first `':'` must be
non-empty, start with an ASCII letter and consist of scheme characters; the
scheme is lowercased. -/
def splitScheme (l : List Char) : Option (List Char × List Char) :=
  let before := l.takeWhile (fun c => c != ':')
  match l.dropWhile (fun c => c != ':') with
  | ':' :: after =>
    (match before with
     | [] => none
     | c :: _ =>
       if c.isAlpha && before.all (fun x => schemeChars.contains x) then
         some (before.map Char.toLower, after)
       else none)
  | _ => none

/-- `_splitnetloc`: the netloc runs to the first `'/'`, `'?'` or `'#'`. -/
def splitNetloc (l : List Char) : List Char × List Char :=
  (l.takeWhile (fun c => c != '/' && c != '?' && c != '#'),
   l.dropWhile (fun c => c != '/' && c != '?' && c != '#'))

/-- The splitting computation of CPython
`urllib.parse.urlsplit(url, dflt, allow_fragments=True)`, without its
raising checks (those are `checkNetloc` below; `urlsplitList` combines the
two exactly as `urlsplit` does). -/
def urlsplitCore (url0 dflt : List Char) : SplitUrl :=
  let url1 := removeUnsafe url0
  let sr :=
    match splitScheme url1 with
    | some p => p
    | none => (removeUnsafe dflt, url1)
  let nl :=
    if sr.2.take 2 = ['/', '/'] then splitNetloc (sr.2.drop 2) else ([], sr.2)
  let beforeFrag := nl.2.takeWhile (fun c => c != '#')
  { scheme := sr.1
    netloc := nl.1
    path := beforeFrag.takeWhile (fun c => c != '?')
    query := (beforeFrag.dropWhile (fun c => c != '?')).drop 1
    fragment := (nl.2.dropWhile (fun c => c != '#')).drop 1 }

/-- The raising checks of CPython `urlsplit`, as a result value: the
`ValueError("Invalid IPv6 URL")` for unbalanced square brackets in the
netloc, and `_checknetloc`.  `_checknetloc` has an ASCII fast path that
never raises; a non-ASCII netloc is rejected conservatively here (CPython
accepts exactly those whose NFKC normalization introduces none of
`/ ? # @ :`, an analysis outside this model).  On all-ASCII netlocs —
every netloc the claims below touch — the model is exact. -/
def checkNetloc (netloc : List Char) : Except String Unit :=
  if ('[' ∈ netloc ∧ ']' ∉ netloc) ∨ (']' ∈ netloc ∧ '[' ∉ netloc) then
    Except.error "Invalid IPv6 URL"
  else if netloc.all (fun c => Nat.blt c.toNat 128) then Except.ok ()
  else Except.error "netloc contains invalid characters under NFKC normalization"

/-- CPython `urllib.parse.urlsplit(url, dflt, allow_fragments=True)`,
including its `ValueError` paths (both concern only the netloc, so checking
the final netloc is equivalent to CPython's check placement). -/
def urlsplitList (url0 dflt : List Char) : Except String SplitUrl :=
  match checkNetloc (urlsplitCore url0 dflt).netloc with
  | Except.error e => Except.error e
  | Except.ok _ => Except.ok (urlsplitCore url0 dflt)

/-- `_splitparams`: split the path at the first `';'` that follows the last
`'/'` (or the first `';'` at all when there is no `'/'`). -/
def splitparams (p : List Char) : List Char × List Char :=
  if p.contains ';' then
    if p.contains '/' then
      let afterSlash := (p.reverse.takeWhile (fun c => c != '/')).reverse
      if afterSlash.contains ';' then
        (p.take (p.length - afterSlash.length) ++ afterSlash.takeWhile (fun c => c != ';'),
         (afterSlash.dropWhile (fun c => c != ';')).drop 1)
      else (p, [])
    else
      (p.takeWhile (fun c => c != ';'), (p.dropWhile (fun c => c != ';')).drop 1)
  else (p, [])

/-- CPython `urllib.parse.urlparse(url, dflt)` (propagating `urlsplit`'s
`ValueError` as `Except.error`). -/
def urlparseList (url dflt : List Char) : Except String ParsedUrl :=
  match urlsplitList url dflt with
  | Except.error e => Except.error e
  | Except.ok s =>
    Except.ok
      { scheme := s.scheme, netloc := s.netloc,
        path := (splitparams s.path).1, params := (splitparams s.path).2,
        query := s.query, fragment := s.fragment }

/-- CPython `urllib.parse.urlunsplit`. -/
def urlunsplitList (u : SplitUrl) : List Char :=
  let p1 :=
    if u.netloc ≠ [] ∨ u.path.take 2 = ['/', '/'] then
      ('/' :: '/' :: u.netloc) ++
        (if u.path ≠ [] ∧ u.path.take 1 ≠ ['/'] then '/' :: u.path else u.path)
    else u.path
  let p2 := if u.scheme ≠ [] then u.scheme ++ ':' :: p1 else p1
  let p3 := if u.query ≠ [] then p2 ++ '?' :: u.query else p2
  if u.fragment ≠ [] then p3 ++ '#' :: u.fragment else p3

/-- CPython `urllib.parse.urlunparse`. -/
def urlunparseList (u : ParsedUrl) : List Char :=
  urlunsplitList
    { scheme := u.scheme, netloc := u.netloc,
      path := if u.params ≠ [] then u.path ++ ';' :: u.params else u.path,
      query := u.query, fragment := u.fragment }

def usesRelative : List (List Char) :=
  ["", "ftp", "http", "gopher", "nntp", "imap", "wais", "file", "https",
   "shttp", "mms", "prospero", "rtsp", "rtspu", "sftp", "svn", "svn+ssh",
   "ws", "wss"].map String.toList

def usesNetloc : List (List Char) :=
  ["", "ftp", "http", "gopher", "nntp", "telnet", "imap", "wais", "file",
   "mms", "https", "shttp", "snews", "prospero", "rtsp", "rtspu", "rsync",
   "svn", "svn+ssh", "sftp", "nfs", "git", "git+ssh", "ws", "wss"].map
    String.toList

def splitCharAux (sep : Char) : List Char → List Char → List (List Char)
  | [], acc => [acc.reverse]
  | c :: rest, acc =>
    if c = sep then acc.reverse :: splitCharAux sep rest []
    else splitCharAux sep rest (c :: acc)

/-- Python `str.split(sep)` for a one-character separator. -/
def splitChar (sep : Char) (l : List Char) : List (List Char) := splitCharAux sep l []

/-- Python `sep.join(parts)` for a one-character separator. -/
def joinChar (sep : Char) : List (List Char) → List Char
  | [] => []
  | [x] => x
  | x :: xs => x ++ sep :: joinChar sep xs

/-- `segments[1:-1] = filter(None, segments[1:-1])`. -/
def filterMiddle : List (List Char) → List (List Char)
  | [] => []
  | [x] => [x]
  | x :: xs => x :: ((xs.dropLast.filter (fun s => !s.isEmpty)) ++ [xs.getLastD []])

/-- The dot-segment resolution loop of `urljoin` (`'..'` pops, `'.'` is
skipped, a trailing `'.'`/`'..'` re-appends an empty segment). -/
def resolveSegs (segs : List (List Char)) : List (List Char) :=
  let resolved := segs.foldl
    (fun acc seg =>
      if seg = ['.', '.'] then acc.dropLast
      else if seg = ['.'] then acc
      else acc ++ [seg]) []
  if segs.getLastD [] = ['.'] ∨ segs.getLastD [] = ['.', '.'] then resolved ++ [[]]
  else resolved

/-- CPython `urllib.parse.urljoin(base, url)` (Python 3.11 source),
specialized to `allow_fragments=True`.  A `ValueError` raised while parsing
either argument propagates as `Except.error`; after both parses succeed the
remainder of `urljoin` raises nothing. -/
def urljoin (base url : String) : Except String String :=
  if base = "" then Except.ok url
  else if url = "" then Except.ok base
  else
    match urlparseList base.toList [] with
    | Except.error e => Except.error e
    | Except.ok b =>
      match urlparseList url.toList b.scheme with
      | Except.error e => Except.error e
      | Except.ok u =>
        if u.scheme ≠ b.scheme ∨ ¬ usesRelative.contains u.scheme then
          Except.ok url
        else if usesNetloc.contains u.scheme ∧ u.netloc ≠ [] then
          Except.ok (String.mk (urlunparseList u))
        else
          let netloc :=
            if usesNetloc.contains u.scheme then b.netloc else u.netloc
          if u.path = [] ∧ u.params = [] then
            Except.ok (String.mk (urlunparseList
              { scheme := u.scheme, netloc := netloc, path := b.path,
                params := b.params,
                query := if u.query = [] then b.query else u.query,
                fragment := u.fragment }))
          else
            let baseParts0 := splitChar '/' b.path
            let baseParts :=
              if baseParts0.getLastD [] ≠ [] then baseParts0.dropLast
              else baseParts0
            let segs :=
              if u.path.take 1 = ['/'] then splitChar '/' u.path
              else filterMiddle (baseParts ++ splitChar '/' u.path)
            let joined := joinChar '/' (resolveSegs segs)
            Except.ok (String.mk (urlunparseList
              { scheme := u.scheme, netloc := netloc,
                path := if joined = [] then ['/'] else joined,
                params := u.params, query := u.query,
                fragment := u.fragment }))

/-- Python `str.strip()` restricted to ASCII whitespace. -/
def pythonStrip (s : String) : String :=
  let ws : List Char := [' ', '\t', '\n', '\r', '\x0B', '\x0C']
  String.mk
    (((s.toList.dropWhile (fun c => ws.contains c)).reverse.dropWhile
        (fun c => ws.contains c)).reverse)

/-- `MirrorManager.get_mirror_url` (src/main.py 314-322): look the mirror
name up in the config table (default `""`), and when the prefix string is
truthy, strip it and `urljoin` it with the original URL, else return the
original URL.  The method has no `try/except`, so a `ValueError` out of
`urljoin` propagates to the caller (`Except.error`). -/
def get_mirror_url (mirrors : List (String × String))
    (original_url mirror_name : String) : Except String String :=
  let mirror_url :=
    match mirrors.find? (fun kv => kv.1 == mirror_name) with
    | some kv => kv.2
    | none => ""
  if mirror_url ≠ "" then urljoin (pythonStrip mirror_url) original_url
  else Except.ok original_url

/-- The default mirror table of `ConfigManager.load_config`. -/
def defaultMirrors : List (String × String) :=
  [("GitHub", ""),
   ("Cloudflare", "https://gh-proxy.org/"),
   ("Fastly", "https://cdn.gh-proxy.org/"),
   ("Edgeone", "https://edgeone.gh-proxy.org/"),
   ("香港", "https://hk.gh-proxy.org/")]

/-! ### Signal model of `DownloadWorker` (src/main.py 162-297)

The Qt signals a transfer emits.  Worker threads are sequentialized into a
fixed interleaving (one worker's stream after another); `running` and
`paused` are the values of the shared flags observed by the workers and by
the post-join completion check at line 225.  The once-per-second `speed`
sampler thread is a daemon thread and emits no `finished`/`error` signals,
so it is omitted.  The progress percentage `int(downloaded / total * 100)`
is modelled as `downloaded * 100 / total` (exact floor, ignoring binary
floating-point rounding, which none of the claims depend on). -/

inductive Sig where
  | progress (pct : Nat)
  | speed (text : String)
  | finished (path : String)
  | error (msg : String)
deriving DecidableEq

/-- Outcome of one worker's `requests.get` for its range: either the request
raised (transport failure or `raise_for_status` on a non-success response),
or it streamed the listed increment sizes via `iter_content`. -/
inductive ChunkResult where
  | httpErr (msg : String)
  | streamed (sizes : List Nat)
deriving DecidableEq

/-- `DownloadWorker.download_chunk` (lines 230-267): on a request failure it
emits `error("下载块时出错: " + msg)` and returns; otherwise it writes each
non-empty increment while `running` holds, adding its length to the shared
counter and emitting the progress percentage. -/
def chunkSigs (total : Nat) (running : Bool) (downloaded : Nat) :
    ChunkResult → List Sig × Nat
  | ChunkResult.httpErr m => ([Sig.error ("下载块时出错: " ++ m)], downloaded)
  | ChunkResult.streamed sizes =>
    if running then
      sizes.foldl
        (fun st sz =>
          if sz = 0 then st
          else (st.1 ++ [Sig.progress ((st.2 + sz) * 100 / total)], st.2 + sz))
        ([], downloaded)
    else ([], downloaded)

/-- `DownloadWorker.run` (lines 183-228): probe the size (`error` and return
on a probe failure or a zero/absent content length), run the chunk workers,
join them, and emit `finished(save_path)` exactly when
`self.running and not self.paused` holds at the post-join check — chunk
errors do not touch either flag. -/
def runSignals (probe : Except String Nat) (results : List ChunkResult)
    (running paused : Bool) (save_path : String) : List Sig :=
  match probe with
  | Except.error e => [Sig.error e]
  | Except.ok total =>
    if total = 0 then [Sig.error "无法获取文件大小"]
    else
      (results.foldl
        (fun st r =>
          let out := chunkSigs total running st.2 r
          (st.1 ++ out.1, out.2)) (([] : List Sig), 0)).1 ++
      (if running && !paused then [Sig.finished save_path] else [])

/-! ## Helper lemmas -/

theorem chunkSigs_no_finished (total : Nat) (running : Bool) (d : Nat)
    (r : ChunkResult) (p : String) :
    Sig.finished p ∉ (chunkSigs total running d r).1 := by
  cases r with
  | httpErr m => simp [chunkSigs]
  | streamed sizes =>
    cases running with
    | false => simp [chunkSigs]
    | true =>
      show Sig.finished p ∉ (sizes.foldl _ ([], d)).1
      generalize hst : (([], d) : List Sig × Nat) = st
      have hbase : Sig.finished p ∉ st.1 := by rw [← hst]; simp
      clear hst
      induction sizes generalizing st with
      | nil => exact hbase
      | cons sz sizes ih =>
        simp only [List.foldl_cons]
        apply ih
        by_cases hz : sz = 0
        · simpa [chunkSigs, hz] using hbase
        · simp [chunkSigs, hz, hbase]

theorem runFold_no_finished (total : Nat) (running : Bool) (p : String)
    (results : List ChunkResult) :
    ∀ st : List Sig × Nat, Sig.finished p ∉ st.1 →
      Sig.finished p ∉ (results.foldl
        (fun st r =>
          let out := chunkSigs total running st.2 r
          (st.1 ++ out.1, out.2)) st).1 := by
  induction results with
  | nil => exact fun st h => h
  | cons r rs ih =>
    intro st h
    simp only [List.foldl_cons]
    apply ih
    intro hmem
    rcases List.mem_append.mp hmem with h1 | h2
    · exact h h1
    · exact chunkSigs_no_finished total running st.2 r p h2

/-! ## Claims -/

/-- Claim C1 (code-bug evidence): transfer with a successful 100-byte probe
and two workers, the second of which gets a non-success response for its
range (so `raise_for_status` raises and `download_chunk` emits the chunk
error); no stop or pause was requested.  `DownloadWorker.run` still emits
`finished(save_path)` after joining the workers, because the completion
guard at line 225 consults only `self.running` and `self.paused`, which a
chunk error never touches — the claimed "no finished/Completed outcome on a
chunk error" does not hold of the code. -/
theorem chunk_error_still_emits_finished :
    Sig.error "下载块时出错: 500 Server Error" ∈
      runSignals (Except.ok 100)
        [ChunkResult.streamed [50], ChunkResult.httpErr "500 Server Error"]
        true false "EndlessPixel.1.21.0-v10-1.6.zip" ∧
    Sig.finished "EndlessPixel.1.21.0-v10-1.6.zip" ∈
      runSignals (Except.ok 100)
        [ChunkResult.streamed [50], ChunkResult.httpErr "500 Server Error"]
        true false "EndlessPixel.1.21.0-v10-1.6.zip" := by
  decide

/-- Claim C2 (counterexample): the spec asserts
`sortKey("EndlessPixel.1.21.0-v10-1.6") > sortKey("EndlessPixel.1.21.0-v10-b9")`,
but `parse_version` gives the two tags the identical key, so the final
release does not sort strictly above the prerelease. -/
theorem final_vs_prerelease_key_counterexample :
    parse_version "EndlessPixel.1.21.0-v10-1.6"
        = parse_version "EndlessPixel.1.21.0-v10-b9" ∧
    keyLtB (parse_version "EndlessPixel.1.21.0-v10-b9")
        (parse_version "EndlessPixel.1.21.0-v10-1.6") = false := by
  decide

/-- Claim C2 (amended): the suffix search `-([a-zA-Z]+.*)$` matches at
`-v10-...` in both tags (a hyphen followed by a letter), so both the final
release and the prerelease receive releaseRank 50 and the two sort keys are
equal, `([1,21,0], 50, 10)`; releaseRank 100 only arises when no hyphen in
the tag is followed by a letter. -/
theorem final_and_prerelease_keys_equal :
    parse_version "EndlessPixel.1.21.0-v10-1.6" = ([1, 21, 0], 50, 10) ∧
    parse_version "EndlessPixel.1.21.0-v10-b9" = ([1, 21, 0], 50, 10) := by
  decide

/-- Claim C3 (counterexample): with a first page carrying a release whose
asset matches the naming grammar and a failing second page, `get_versions`
returns the empty dictionary — an ordinary catalog value, not a surfaced
error — and the successfully fetched first page is discarded (the same
release alone would have produced a non-empty catalog). -/
theorem midpagination_failure_returns_empty_value :
    get_versions
        [PageResult.ok
           [{ tag_name := "1.21.0-v10-1.6",
              assets := [{ name := "EndlessPixel.1.21.0-v10-1.6.zip",
                           browser_download_url := "https://github.com/d/1.zip",
                           size := 7 }],
              prerelease := false, published_at := "2025-01-01T00:00:00Z",
              body := "notes", html_url := "https://github.com/r" }] true,
         PageResult.err "HTTPError 500"] = [] ∧
    buildCatalog
        [{ tag_name := "1.21.0-v10-1.6",
           assets := [{ name := "EndlessPixel.1.21.0-v10-1.6.zip",
                        browser_download_url := "https://github.com/d/1.zip",
                        size := 7 }],
           prerelease := false, published_at := "2025-01-01T00:00:00Z",
           body := "notes", html_url := "https://github.com/r" }] ≠ [] := by
  decide

/-- Claim C3 (amended): a failure on any page aborts the whole fetch — no
partial catalog is built from the pages already fetched — but no error value
surfaces to the caller: the `try/except` in `get_versions` prints the
message and returns the empty dictionary. -/
theorem page_failure_yields_empty_catalog (pages : List PageResult)
    (m : String) (h : collectReleases pages = Except.error m) :
    get_versions pages = [] := by
  simp [get_versions, h]

/-- Claim C3 witness: `page_failure_yields_empty_catalog` at a concrete
failing page list. -/
theorem page_failure_yields_empty_catalog_witness :
    get_versions [PageResult.err "timeout"] = [] :=
  page_failure_yields_empty_catalog [PageResult.err "timeout"] "timeout" rfl

/-- Claim C9: `parse_version` is total and deterministic — it is a pure
function (two calls on the same input give the same key), every key's
releaseRank component is 50 or 100, and malformed inputs (empty or
digit-free tags) give the best-effort key `([], 100, 0)` rather than an
error. -/
theorem parse_version_total_deterministic :
    (∀ s : String, parse_version s = parse_version s ∧
      ((parse_version s).2.1 = 50 ∨ (parse_version s).2.1 = 100)) ∧
    parse_version "" = ([], 100, 0) ∧
    parse_version "EndlessPixel" = ([], 100, 0) := by
  refine ⟨fun s => ⟨rfl, ?_⟩, by decide, by decide⟩
  by_cases h : preSuffix s ≠ ""
  · left; simp [parse_version, h]
  · right; simp [parse_version, h]

/-- Claim C8: when the mirror name is absent from the table, or its
configured prefix is the empty string, `get_mirror_url` returns the
original URL unchanged (and raises nothing: this branch returns before ever
reaching `urljoin`). -/
theorem get_mirror_url_empty_identity (mirrors : List (String × String))
    (original_url mirror_name : String)
    (h : mirrors.find? (fun kv => kv.1 == mirror_name) = none ∨
         ∃ kv, mirrors.find? (fun kv2 => kv2.1 == mirror_name) = some kv ∧
           kv.2 = "") :
    get_mirror_url mirrors original_url mirror_name
      = Except.ok original_url := by
  unfold get_mirror_url
  rcases h with h | ⟨kv, hfind, hkv⟩
  · rw [h]
    simp
  · rw [hfind]
    simp [hkv]

/-- Claim C8 witness: with the default mirror table, whose "GitHub" prefix
is empty, `get_mirror_url` is the identity at a concrete URL. -/
theorem get_mirror_url_empty_identity_witness :
    get_mirror_url defaultMirrors
        "https://github.com/EndlessPixel/EndlessPixel-Modpack/releases/download/1.21.0-v10-1.6/EndlessPixel.1.21.0-v10-1.6.zip"
        "GitHub"
      = Except.ok "https://github.com/EndlessPixel/EndlessPixel-Modpack/releases/download/1.21.0-v10-1.6/EndlessPixel.1.21.0-v10-1.6.zip" :=
  get_mirror_url_empty_identity defaultMirrors _ "GitHub"
    (Or.inr ⟨("GitHub", ""), by decide, rfl⟩)

/-- Claim C10: once `stop()` has set `running := False` (and the post-join
completion check at line 225 therefore fails), no `finished` outcome is
emitted — regardless of the probe result, of how many bytes the workers had
already downloaded, and of the pause flag. -/
theorem stop_suppresses_finished (probe : Except String Nat)
    (results : List ChunkResult) (paused : Bool) (save_path p : String) :
    Sig.finished p ∉ runSignals probe results false paused save_path := by
  cases probe with
  | error e => simp [runSignals]
  | ok total =>
    by_cases ht : total = 0
    · simp [runSignals, ht]
    · simp only [runSignals, if_neg ht]
      intro hmem
      rcases List.mem_append.mp hmem with h1 | h2
      · exact runFold_no_finished total false p results ([], 0) (by simp) h1
      · simp at h2

/-- Claim C10 witness: `stop_suppresses_finished` at a concrete stopped
transfer that had already downloaded 50 of 100 bytes. -/
theorem stop_suppresses_finished_witness :
    Sig.finished "f.zip" ∉
      runSignals (Except.ok 100) [ChunkResult.streamed [50]] false false
        "f.zip" :=
  stop_suppresses_finished (Except.ok 100) [ChunkResult.streamed [50]] false
    "f.zip" "f.zip"

/-- Claim C5: for every `T ≥ N ≥ 1`, `DownloadWorker.run` partitions
`[0, T)` into exactly `N` contiguous, non-overlapping byte ranges: there are
`N` ranges, range `i < N-1` is `[i*(T/N), (i+1)*(T/N) - 1]`, the last range
ends at `T-1`, every earlier range ends strictly before a later one starts,
and a byte `k` lies in some range iff `k < T` (no gap, no overlap). -/
theorem chunkRanges_exact_partition (T N : Nat) (hN : 1 ≤ N) (hT : N ≤ T) :
    (chunkRanges T N).length = N ∧
    (∀ i, i + 1 < N →
        chunkStart T N i = i * (T / N) ∧
        chunkEnd T N i = (i + 1) * (T / N) - 1) ∧
    chunkEnd T N (N - 1) = T - 1 ∧
    (∀ i j, i < j → j < N → chunkEnd T N i < chunkStart T N j) ∧
    (∀ k, k < T ↔ ∃ i, i < N ∧ chunkStart T N i ≤ k ∧ k ≤ chunkEnd T N i) := by
  have hN0 : 0 < N := hN
  have hc : 1 ≤ T / N := (Nat.one_le_div_iff hN0).mpr hT
  have hcm : T / N * N ≤ T := Nat.div_mul_le_self T N
  refine ⟨by simp [chunkRanges], fun i hi => ⟨rfl, ?_⟩, ?_, ?_, ?_⟩
  · unfold chunkEnd
    rw [if_neg (by omega)]
  · unfold chunkEnd
    rw [if_pos rfl]
  · intro i j hij hjN
    unfold chunkEnd chunkStart
    rw [if_neg (show ¬ i = N - 1 by omega)]
    have h1 : (i + 1) * (T / N) ≤ j * (T / N) :=
      Nat.mul_le_mul_right _ (by omega)
    have h2 : 1 ≤ (i + 1) * (T / N) := by
      calc 1 = 1 * 1 := rfl
        _ ≤ (i + 1) * (T / N) := Nat.mul_le_mul (by omega) hc
    omega
  · intro k
    constructor
    · intro hk
      by_cases hks : k / (T / N) < N - 1
      · refine ⟨k / (T / N), by omega, ?_, ?_⟩
        · exact Nat.div_mul_le_self k (T / N)
        · unfold chunkEnd
          rw [if_neg (by omega)]
          have hdm := Nat.div_add_mod k (T / N)
          have hmod : k % (T / N) < T / N := Nat.mod_lt k (by omega)
          have hcomm : T / N * (k / (T / N)) = k / (T / N) * (T / N) :=
            Nat.mul_comm _ _
          have hmul : (k / (T / N) + 1) * (T / N)
              = k / (T / N) * (T / N) + T / N := by ring
          omega
      · refine ⟨N - 1, by omega, ?_, ?_⟩
        · unfold chunkStart
          have hge : N - 1 ≤ k / (T / N) := by omega
          have hm1 : (N - 1) * (T / N) ≤ k / (T / N) * (T / N) :=
            Nat.mul_le_mul_right _ hge
          have hm2 : k / (T / N) * (T / N) ≤ k := Nat.div_mul_le_self k (T / N)
          omega
        · unfold chunkEnd
          rw [if_pos rfl]
          omega
    · rintro ⟨i, hiN, hsk, hke⟩
      by_cases hi : i = N - 1
      · subst hi
        unfold chunkEnd at hke
        rw [if_pos rfl] at hke
        omega
      · unfold chunkEnd at hke
        rw [if_neg hi] at hke
        have h1 : (i + 1) * (T / N) ≤ N * (T / N) :=
          Nat.mul_le_mul_right _ (by omega)
        have h2 : N * (T / N) = T / N * N := Nat.mul_comm _ _
        have h3 : 1 ≤ (i + 1) * (T / N) := by
          calc 1 = 1 * 1 := rfl
            _ ≤ (i + 1) * (T / N) := Nat.mul_le_mul (by omega) hc
        omega

/-- Claim C5 witness: `chunkRanges_exact_partition` at `T = 10`, `N = 3`
(hypotheses `1 ≤ 3` and `3 ≤ 10` hold), with two of its consequences
evaluated: three ranges are produced and the last ends at byte 9. -/
theorem chunkRanges_exact_partition_witness :
    (1 ≤ 3 ∧ 3 ≤ 10) ∧ (chunkRanges 10 3).length = 3 ∧ chunkEnd 10 3 2 = 9 :=
  ⟨⟨by decide, by decide⟩,
   (chunkRanges_exact_partition 10 3 (by decide) (by decide)).1,
   (chunkRanges_exact_partition 10 3 (by decide) (by decide)).2.2.1⟩

theorem takeWhile_all_append (p : Char → Bool) (xs : List Char) (y : Char)
    (ys : List Char) (hxs : ∀ a ∈ xs, p a = true) (hy : p y = false) :
    (xs ++ y :: ys).takeWhile p = xs ∧ (xs ++ y :: ys).dropWhile p = y :: ys := by
  induction xs with
  | nil => simp [List.takeWhile_cons, List.dropWhile_cons, hy]
  | cons x xs ih =>
    have hx : p x = true := hxs x (by simp)
    obtain ⟨h1, h2⟩ := ih (fun a ha => hxs a (by simp [ha]))
    simp [List.takeWhile_cons, List.dropWhile_cons, hx, h1, h2]

theorem mcVerParse_two_part (a b rest : List Char) (ha : a ≠ []) (hb : b ≠ [])
    (hda : ∀ c ∈ a, c.isDigit = true) (hdb : ∀ c ∈ b, c.isDigit = true) :
    mcVerParse (a ++ '.' :: (b ++ '-' :: rest)) = some (a ++ '.' :: b) := by
  obtain ⟨h1, h2⟩ :=
    takeWhile_all_append Char.isDigit a '.' (b ++ '-' :: rest) hda (by decide)
  obtain ⟨h3, h4⟩ := takeWhile_all_append Char.isDigit b '-' rest hdb (by decide)
  have hae : a.isEmpty = false := List.isEmpty_eq_false.mpr ha
  have hbe : b.isEmpty = false := List.isEmpty_eq_false.mpr hb
  unfold mcVerParse
  rw [h1, h2]
  simp [h3, h4, hae, hbe]

theorem mcVerParse_three_part (a b c3 rest : List Char) (ha : a ≠ [])
    (hb : b ≠ []) (hc : c3 ≠ []) (hda : ∀ c ∈ a, c.isDigit = true)
    (hdb : ∀ c ∈ b, c.isDigit = true) (hdc : ∀ c ∈ c3, c.isDigit = true) :
    mcVerParse (a ++ '.' :: (b ++ '.' :: (c3 ++ '-' :: rest)))
      = some (a ++ '.' :: (b ++ '.' :: c3)) := by
  obtain ⟨h1, h2⟩ := takeWhile_all_append Char.isDigit a '.'
    (b ++ '.' :: (c3 ++ '-' :: rest)) hda (by decide)
  obtain ⟨h3, h4⟩ := takeWhile_all_append Char.isDigit b '.'
    (c3 ++ '-' :: rest) hdb (by decide)
  obtain ⟨h5, h6⟩ := takeWhile_all_append Char.isDigit c3 '-' rest hdc (by decide)
  have hae : a.isEmpty = false := List.isEmpty_eq_false.mpr ha
  have hbe : b.isEmpty = false := List.isEmpty_eq_false.mpr hb
  have hce : c3.isEmpty = false := List.isEmpty_eq_false.mpr hc
  unfold mcVerParse
  rw [h1, h2]
  simp [h3, h4, h5, h6, hae, hbe, hce]

theorem mcVerParse_sound (l v : List Char) (h : mcVerParse l = some v) :
    (∃ rest, l = v ++ '-' :: rest) ∧
    ((∃ a b, a ≠ [] ∧ b ≠ [] ∧ (∀ c ∈ a, c.isDigit = true) ∧
        (∀ c ∈ b, c.isDigit = true) ∧ v = a ++ '.' :: b) ∨
     (∃ a b c3, a ≠ [] ∧ b ≠ [] ∧ c3 ≠ [] ∧ (∀ c ∈ a, c.isDigit = true) ∧
        (∀ c ∈ b, c.isDigit = true) ∧ (∀ c ∈ c3, c.isDigit = true) ∧
        v = a ++ '.' :: (b ++ '.' :: c3))) := by
  have hl : l.takeWhile Char.isDigit ++ l.dropWhile Char.isDigit = l :=
    List.takeWhile_append_dropWhile Char.isDigit l
  unfold mcVerParse at h
  by_cases h1 : (l.takeWhile Char.isDigit).isEmpty = true
  · simp [h1] at h
  · rw [if_neg h1] at h
    have ha : l.takeWhile Char.isDigit ≠ [] :=
      List.isEmpty_eq_false.mp (by simpa using h1)
    have hda : ∀ c ∈ l.takeWhile Char.isDigit, c.isDigit = true :=
      fun c hc => List.mem_takeWhile_imp hc
    rcases hd1 : l.dropWhile Char.isDigit with _ | ⟨c, r1⟩
    · rw [hd1] at h
      exact absurd h (by simp)
    · rw [hd1] at h
      simp only [] at h
      rw [hd1] at hl
      by_cases hcdot : c ≠ '.'
      · rw [if_pos hcdot] at h
        exact absurd h (by simp)
      · push_neg at hcdot
        subst hcdot
        rw [if_neg (by simp)] at h
        by_cases h2 : (r1.takeWhile Char.isDigit).isEmpty = true
        · simp [h2] at h
        · rw [if_neg h2] at h
          have hb : r1.takeWhile Char.isDigit ≠ [] :=
            List.isEmpty_eq_false.mp (by simpa using h2)
          have hdb : ∀ c ∈ r1.takeWhile Char.isDigit, c.isDigit = true :=
            fun c hc => List.mem_takeWhile_imp hc
          have hr1 : r1.takeWhile Char.isDigit ++ r1.dropWhile Char.isDigit = r1 :=
            List.takeWhile_append_dropWhile Char.isDigit r1
          rcases hd2 : r1.dropWhile Char.isDigit with _ | ⟨c2, r2⟩
          · rw [hd2] at h
            exact absurd h (by simp)
          · rw [hd2] at h
            simp only [] at h
            rw [hd2] at hr1
            by_cases hc2 : c2 = '-'
            · subst hc2
              rw [if_pos rfl] at h
              have hv : v = l.takeWhile Char.isDigit ++ '.' :: r1.takeWhile Char.isDigit := by
                injection h with h'
                exact h'.symm
              refine ⟨⟨r2, ?_⟩, Or.inl ⟨_, _, ha, hb, hda, hdb, hv⟩⟩
              conv_lhs => rw [← hl, ← hr1]
              rw [hv]
              simp
            · rw [if_neg hc2] at h
              by_cases hc2dot : c2 ≠ '.'
              · rw [if_pos hc2dot] at h
                exact absurd h (by simp)
              · push_neg at hc2dot
                subst hc2dot
                rw [if_neg (by simp)] at h
                by_cases h3 : (r2.takeWhile Char.isDigit).isEmpty = true
                · simp [h3] at h
                · rw [if_neg h3] at h
                  have hc3 : r2.takeWhile Char.isDigit ≠ [] :=
                    List.isEmpty_eq_false.mp (by simpa using h3)
                  have hdc : ∀ c ∈ r2.takeWhile Char.isDigit, c.isDigit = true :=
                    fun c hc => List.mem_takeWhile_imp hc
                  have hr2 : r2.takeWhile Char.isDigit ++ r2.dropWhile Char.isDigit = r2 :=
                    List.takeWhile_append_dropWhile Char.isDigit r2
                  rcases hd3 : r2.dropWhile Char.isDigit with _ | ⟨c3, r3⟩
                  · rw [hd3] at h
                    exact absurd h (by simp)
                  · rw [hd3] at h
                    simp only [] at h
                    rw [hd3] at hr2
                    by_cases hc3dash : c3 = '-'
                    · subst hc3dash
                      rw [if_pos rfl] at h
                      have hv : v = l.takeWhile Char.isDigit ++ '.' ::
                          (r1.takeWhile Char.isDigit ++ '.' :: r2.takeWhile Char.isDigit) := by
                        injection h with h'
                        exact h'.symm
                      refine ⟨⟨r3, ?_⟩, Or.inr ⟨_, _, _, ha, hb, hc3, hda, hdb, hdc, hv⟩⟩
                      conv_lhs => rw [← hl, ← hr1, ← hr2]
                      rw [hv]
                      simp
                    · rw [if_neg hc3dash] at h
                      exact absurd h (by simp)

/-- Claim C7: for every tag name the extracted platform version is the
leading dotted 2- or 3-part numeric version when the tag begins with such a
version immediately followed by a hyphen (completeness, both arities), and
is the "未知版本" sentinel otherwise (soundness: every successful parse has
exactly that shape, so any tag without it maps to `none` and hence the
sentinel); the two end-to-end examples evaluate as the claim says. -/
theorem extract_mc_version_spec :
    (∀ a b rest : List Char, a ≠ [] → b ≠ [] →
        (∀ c ∈ a, c.isDigit = true) → (∀ c ∈ b, c.isDigit = true) →
        mcVerParse (a ++ '.' :: (b ++ '-' :: rest)) = some (a ++ '.' :: b)) ∧
    (∀ a b c3 rest : List Char, a ≠ [] → b ≠ [] → c3 ≠ [] →
        (∀ c ∈ a, c.isDigit = true) → (∀ c ∈ b, c.isDigit = true) →
        (∀ c ∈ c3, c.isDigit = true) →
        mcVerParse (a ++ '.' :: (b ++ '.' :: (c3 ++ '-' :: rest)))
          = some (a ++ '.' :: (b ++ '.' :: c3))) ∧
    (∀ l v : List Char, mcVerParse l = some v →
        (∃ rest, l = v ++ '-' :: rest) ∧
        ((∃ a b, a ≠ [] ∧ b ≠ [] ∧ (∀ c ∈ a, c.isDigit = true) ∧
            (∀ c ∈ b, c.isDigit = true) ∧ v = a ++ '.' :: b) ∨
         (∃ a b c3, a ≠ [] ∧ b ≠ [] ∧ c3 ≠ [] ∧ (∀ c ∈ a, c.isDigit = true) ∧
            (∀ c ∈ b, c.isDigit = true) ∧ (∀ c ∈ c3, c.isDigit = true) ∧
            v = a ++ '.' :: (b ++ '.' :: c3)))) ∧
    (∀ s : String, mcVerParse s.toList = none → mcVersionOf s = "未知版本") ∧
    mcVersionOf "1.20.12-v10-1.0" = "1.20.12" ∧
    mcVersionOf "v10-1.0" = "未知版本" := by
  refine ⟨mcVerParse_two_part, mcVerParse_three_part, mcVerParse_sound,
    ?_, by decide, by decide⟩
  intro s h
  unfold mcVersionOf extract_mc_version
  rw [h]
  rfl

/-- Claim C7 witness: the completeness half of `extract_mc_version_spec`
instantiated at the 2-part tag `"1.20-x"`. -/
theorem extract_mc_version_spec_witness :
    mcVerParse (['1'] ++ '.' :: (['2', '0'] ++ '-' :: ['x']))
      = some (['1'] ++ '.' :: ['2', '0']) :=
  extract_mc_version_spec.1 ['1'] ['2', '0'] ['x'] (by decide) (by decide)
    (by decide) (by decide)

/-! ### Helper lemmas for the catalog claims -/

theorem find?_first_match (p : Asset → Bool) (pre post : List Asset) (a : Asset)
    (hpre : ∀ b ∈ pre, p b = false) (ha : p a = true) :
    (pre ++ a :: post).find? p = some a := by
  induction pre with
  | nil => simpa using List.find?_cons_of_pos post ha
  | cons x xs ih =>
    have hx : p x = false := hpre x (by simp)
    rw [List.cons_append, List.find?_cons_of_neg _ (by simp [hx])]
    exact ih (fun b hb => hpre b (by simp [hb]))

theorem catalogCount_insertEntry (cat : List (String × List ModpackEntry))
    (k : String) (e : ModpackEntry) :
    catalogCount (insertEntry cat k e) = catalogCount cat + 1 := by
  induction cat with
  | nil => simp [insertEntry, catalogCount]
  | cons kv rest ih =>
    rcases kv with ⟨k', es⟩
    by_cases hk : k' = k
    · simp [insertEntry, hk, catalogCount]
      omega
    · simp only [insertEntry, if_neg hk, catalogCount, List.map_cons,
        List.sum_cons] at *
      omega

theorem catalogCount_fold (l : List Release) :
    ∀ cat, catalogCount (l.foldl
        (fun cat r =>
          match releaseToEntry r with
          | none => cat
          | some ke => insertEntry cat ke.1 ke.2) cat)
      = catalogCount cat + (l.filterMap releaseToEntry).length := by
  induction l with
  | nil => simp
  | cons r rs ih =>
    intro cat
    rcases hre : releaseToEntry r with _ | ke
    · simp [List.foldl_cons, hre, ih, List.filterMap_cons]
    · simp [List.foldl_cons, hre, ih, List.filterMap_cons,
        catalogCount_insertEntry]
      omega

/-- Claim C6: the resolver selects the first asset (in listed order) whose
name matches the grammar; a release with no assets or no matching asset is
skipped entirely; each release contributes zero or one catalog entry (the
catalog's total entry count equals the number of releases with a matching
asset); and in the three-asset scenario where only the second asset matches
the grammar, exactly that second asset is selected. -/
theorem resolver_selects_first_matching_asset :
    (∀ (r : Release) (pre post : List Asset) (a : Asset),
        r.assets = pre ++ a :: post →
        (∀ b ∈ pre, assetNameOk b.name = false) →
        assetNameOk a.name = true →
        releaseToEntry r = some (mcVersionOf r.tag_name, mkEntry r a)) ∧
    (∀ r : Release, (∀ b ∈ r.assets, assetNameOk b.name = false) →
        releaseToEntry r = none) ∧
    (∀ rs : List Release,
        catalogCount (buildCatalog rs) = (rs.filterMap releaseToEntry).length) ∧
    releaseToEntry
        { tag_name := "1.21.0-v10-1.6",
          assets :=
            [{ name := "modpack-notes.txt", browser_download_url := "u1",
               size := 1 },
             { name := "EndlessPixel.1.21.0-v10-1.6.zip",
               browser_download_url := "u2", size := 2 },
             { name := "sources.zip", browser_download_url := "u3",
               size := 3 }],
          prerelease := false, published_at := "2025-01-01T00:00:00Z",
          body := "notes", html_url := "h" }
      = some ("1.21.0",
          { tag_name := "1.21.0-v10-1.6", download_url := "u2",
            file_name := "EndlessPixel.1.21.0-v10-1.6.zip", file_size := 2,
            is_prerelease := false, published_at := "2025-01-01T00:00:00Z",
            release_notes := "notes", html_url := "h" }) := by
  refine ⟨?_, ?_, ?_, by decide⟩
  · intro r pre post a hassets hpre ha
    have hne : r.assets.isEmpty = false := by
      rw [hassets, List.isEmpty_eq_false]
      simp
    unfold releaseToEntry
    rw [hassets] at hne ⊢
    rw [find?_first_match _ pre post a hpre ha]
    simp [hne]
  · intro r hall
    unfold releaseToEntry
    by_cases he : r.assets.isEmpty
    · simp [he]
    · have hfind : r.assets.find? (fun a => assetNameOk a.name) = none :=
        List.find?_eq_none.mpr (fun x hx => by simp [hall x hx])
      simp [he, hfind]
  · intro rs
    unfold buildCatalog
    rw [catalogCount_fold]
    have hp : (sortReleases rs).Perm rs := List.perm_insertionSort _ rs
    have hlen := (hp.filterMap releaseToEntry).length_eq
    simpa [catalogCount] using hlen

/-- Claim C6 witness: the first-match half of
`resolver_selects_first_matching_asset` at a release whose first asset does
not match the grammar and whose second does. -/
theorem resolver_selects_first_matching_asset_witness :
    releaseToEntry
        { tag_name := "1.20-v9-2.0",
          assets :=
            [{ name := "notes.txt", browser_download_url := "u1", size := 1 },
             { name := "EndlessPixel.1.20-v9-2.0.mrpack",
               browser_download_url := "u2", size := 2 }],
          prerelease := true, published_at := "", body := "", html_url := "" }
      = some (mcVersionOf "1.20-v9-2.0",
          mkEntry
            { tag_name := "1.20-v9-2.0",
              assets :=
                [{ name := "notes.txt", browser_download_url := "u1",
                   size := 1 },
                 { name := "EndlessPixel.1.20-v9-2.0.mrpack",
                   browser_download_url := "u2", size := 2 }],
              prerelease := true, published_at := "", body := "",
              html_url := "" }
            { name := "EndlessPixel.1.20-v9-2.0.mrpack",
              browser_download_url := "u2", size := 2 }) :=
  resolver_selects_first_matching_asset.1 _
    [{ name := "notes.txt", browser_download_url := "u1", size := 1 }] []
    { name := "EndlessPixel.1.20-v9-2.0.mrpack", browser_download_url := "u2",
      size := 2 }
    rfl (by decide) (by decide)

/-! ### Helper lemmas for the mirror rewriter claim -/

